import Mathlib

/-!
Shallow embedding of the core of the fintech-ledger repository:

* the double-entry validator and entry creation
  (`internal/service/transaction_service.go`),
* the CTEL lien manager (`internal/engine/ctel/manager.go`,
  `internal/engine/ctel/lien.go`),
* the CTE engine (`internal/engine/cte/engine.go`),
* the built-in executors for wallet withdrawal and batch operations
  (`internal/engine/executors/`).

Modelling conventions:

* Monetary amounts are modelled as exact rationals (`ℚ`).  The Go source
  stores and sums them in `float64`; that representation choice is the
  subject of the numerical claim and is discussed there — the control
  flow of every comparison and sum is embedded verbatim.
* Time instants are natural numbers (Unix-style ticks); `time.Now()`
  becomes an explicit `now` parameter, and `a.Before(b)` is `a < b`
  exactly as in Go (strict).
* Generated UUIDs become explicit fresh-identifier parameters.
* Persistence is explicit state passing.  Store reads and writes are
  total, matching the spec's durability assumption; every
  `eventStore.UpdateEvent` is recorded in an event-state trace.
* Transaction and lien identifiers are unique in a store (they are
  UUIDs / primary keys in the source), so iterating over a loaded
  snapshot while writing back by id touches each record exactly once.
-/

namespace FintechLedger

/-! ### Ledger data model (fields used by transaction_service.go) -/

structure Account where
  id : String
  currency : String
deriving Repr, DecidableEq

structure EntryLine where
  accountId : String
  debit : ℚ
  credit : ℚ
deriving Repr, DecidableEq

structure Entry where
  id : String
  lines : List EntryLine
deriving Repr, DecidableEq

inductive ValidationError where
  | tooFewLines : ValidationError
  | accountNotFound : String → ValidationError
  | negativeAmount : ValidationError
  | bothDebitAndCredit : ValidationError
  | unbalanced : ℚ → ℚ → ValidationError
deriving Repr, DecidableEq

/-- Lookup of `accountRepo.GetAccountByID`: `none` models a missing record. -/
def getAccountByID (accounts : List Account) (id : String) : Option Account :=
  accounts.find? (fun a => a.id == id)

/-- The loop body of `transactionServiceImpl.ValidateEntry`
(transaction_service.go:58-81): per line, in source order, check the
account exists, reject a negative amount, reject a line with both debit
and credit positive, and accumulate the two sums.  (The Go code caches
already-seen account ids in a set; against an immutable store this only
skips repeated lookups of the same id and does not change the result,
so the embedding checks each line's account directly.) -/
def validateLinesAux (accounts : List Account) :
    List EntryLine → ℚ → ℚ → Except ValidationError (ℚ × ℚ)
  | [], totalDebit, totalCredit => .ok (totalDebit, totalCredit)
  | l :: rest, totalDebit, totalCredit =>
    if (getAccountByID accounts l.accountId).isNone then
      .error (.accountNotFound l.accountId)
    else if l.debit < 0 ∨ l.credit < 0 then
      .error .negativeAmount
    else if 0 < l.debit ∧ 0 < l.credit then
      .error .bothDebitAndCredit
    else
      validateLinesAux accounts rest (totalDebit + l.debit) (totalCredit + l.credit)

/-- `transactionServiceImpl.ValidateEntry` (transaction_service.go:50-88):
at least two lines, then the per-line loop, then the exact equality of
the two sums. -/
def validateEntry (accounts : List Account) (entry : Entry) :
    Except ValidationError Unit :=
  if entry.lines.length < 2 then .error .tooFewLines
  else
    match validateLinesAux accounts entry.lines 0 0 with
    | .error e => .error e
    | .ok (totalDebit, totalCredit) =>
      if totalDebit ≠ totalCredit then .error (.unbalanced totalDebit totalCredit)
      else .ok ()

/-- `transactionServiceImpl.CreateEntry` (transaction_service.go:91-119):
validate first; nothing reaches the repository unless validation
passes, so on error the ledger is returned untouched. -/
def createEntry (accounts : List Account) (ledger : List Entry) (entry : Entry) :
    Except ValidationError Unit × List Entry :=
  match validateEntry accounts entry with
  | .error e => (.error e, ledger)
  | .ok _ => (.ok (), ledger ++ [entry])

def sumDebits (lines : List EntryLine) : ℚ :=
  lines.foldl (fun s l => s + l.debit) 0

def sumCredits (lines : List EntryLine) : ℚ :=
  lines.foldl (fun s l => s + l.credit) 0

/-- A line that passes the two per-line amount checks of the validator. -/
def lineOk (l : EntryLine) : Prop :=
  ¬(l.debit < 0 ∨ l.credit < 0) ∧ ¬(0 < l.debit ∧ 0 < l.credit)

instance (l : EntryLine) : Decidable (lineOk l) := by
  unfold lineOk; infer_instance

def isLineError : ValidationError → Bool
  | .negativeAmount => true
  | .bothDebitAndCredit => true
  | _ => false

def isAccountError : ValidationError → Bool
  | .accountNotFound _ => true
  | _ => false

/-- Whether a validation outcome is an error satisfying `p`. -/
def errSat (p : ValidationError → Bool) : Except ValidationError Unit → Bool
  | .error e => p e
  | .ok _ => false

/-! ### CTEL liens (internal/engine/ctel) -/

inductive LienState where
  | pending
  | active
  | released
  | expired
deriving Repr, DecidableEq

structure Lien where
  id : String
  eventId : String
  accountId : String
  amount : ℚ
  currency : String
  state : LienState
  expiresAt : Nat
deriving Repr, DecidableEq

inductive LienError where
  | invalidInput : String → LienError
  | insufficientFunds : LienError
  | notFound : LienError
  | invalidLienState : LienError
deriving Repr, DecidableEq

def isInvalidInput {α : Type} : Except LienError α → Bool
  | .error (.invalidInput _) => true
  | _ => false

/-- `LienStore.GetLiensByAccount`. -/
def liensByAccount (liens : List Lien) (accountId : String) : List Lien :=
  liens.filter (fun l => l.accountId == accountId)

/-- `LienStore.GetLiensByEvent`. -/
def liensByEvent (liens : List Lien) (eventId : String) : List Lien :=
  liens.filter (fun l => l.eventId == eventId)

/-- `LienStore.GetLien`. -/
def getLien (liens : List Lien) (id : String) : Option Lien :=
  liens.find? (fun l => l.id == id)

/-- `LienStore.UpdateLien`: write back by primary key. -/
def updateLien (liens : List Lien) (l : Lien) : List Lien :=
  liens.map (fun x => if x.id == l.id then l else x)

/-- The reservation loop of `LienManager.CreateLien` (manager.go:81-86):
sum the amounts of the account's liens whose state is Active or
Pending. -/
def reservedAmount : List Lien → ℚ
  | [] => 0
  | l :: rest =>
    (if l.state = .active ∨ l.state = .pending then l.amount else 0) + reservedAmount rest

/-- `LienManager.CreateLien` (manager.go:42-114).  Input checks in
source order (event id, account id, amount, currency, expiry — the Go
check is `expiresAt.Before(time.Now())`, i.e. strictly earlier than
now), then the sufficient-funds check against the account's available
balance minus all Pending and Active reservations, then a new lien in
state Pending appended to the store. -/
def createLien (avail : String → ℚ) (liens : List Lien) (now : Nat)
    (eventId accountId : String) (amount : ℚ) (currency : String)
    (expiresAt : Nat) (newId : String) : Except LienError (Lien × List Lien) :=
  if eventId = "" then .error (.invalidInput "event ID is required")
  else if accountId = "" then .error (.invalidInput "account ID is required")
  else if amount ≤ 0 then .error (.invalidInput "amount must be greater than zero")
  else if currency = "" then .error (.invalidInput "currency is required")
  else if expiresAt < now then .error (.invalidInput "expiration time must be in the future")
  else if avail accountId - reservedAmount (liensByAccount liens accountId) < amount then
    .error .insufficientFunds
  else
    let lien : Lien :=
      { id := newId, eventId := eventId, accountId := accountId, amount := amount,
        currency := currency, state := .pending, expiresAt := expiresAt }
    .ok (lien, liens ++ [lien])

/-- `LienManager.ReleaseLien` (manager.go:187-208): only an Active lien
can be released; any other source state is `InvalidLienState`. -/
def releaseLien (liens : List Lien) (id : String) : Except LienError (List Lien) :=
  match getLien liens id with
  | none => .error .notFound
  | some l =>
    if l.state ≠ .active then .error .invalidLienState
    else .ok (updateLien liens { l with state := .released })

/-- The reservation loop of `LienManager.GetAvailableBalance`
(manager.go:254-264): liens of the calling event are skipped; Active
and Pending liens of other events contribute their amount. -/
def getAvailBalanceReserved (eventId : String) : List Lien → ℚ
  | [] => 0
  | l :: rest =>
    (if l.eventId == eventId then 0
     else if l.state = .active ∨ l.state = .pending then l.amount
     else 0)
    + getAvailBalanceReserved eventId rest

/-- `LienManager.GetAvailableBalance` (manager.go:236-268). -/
def getAvailableBalance (avail : String → ℚ) (liens : List Lien)
    (eventId accountId : String) : ℚ :=
  avail accountId - getAvailBalanceReserved eventId (liensByAccount liens accountId)

/-! ### CTE engine (internal/engine/cte/engine.go) -/

inductive EventState where
  | created
  | validating
  | validated
  | executing
  | completed
  | failed
  | rollingBack
  | rolledBack
deriving Repr, DecidableEq

inductive TxState where
  | pending
  | executing
  | completed
  | failed
  | compensating
  | compensated
deriving Repr, DecidableEq

structure Tx where
  id : String
  typeTag : String
  state : TxState
  order : Int
  deps : List String
  errMsg : Option String
deriving Repr, DecidableEq

/-- A registered transaction executor.  `execResult txId attempt` is the
error returned by `Execute` on that attempt (`none` = success);
`compOk txId` is whether `Compensate` succeeds for that transaction. -/
structure Executor where
  execResult : String → Nat → Option String
  compOk : String → Bool

/-- The engine's `txExecutors` map. -/
def Registry : Type := List (String × Executor)

def findExecutor (reg : Registry) (typeTag : String) : Option Executor :=
  (List.find? (fun p => p.1 == typeTag) reg).map (fun p => p.2)

/-- The per-event slice of the event store: the event's persisted state
and its transactions, as returned by `GetEventTransactions` ordered by
`order` ascending. -/
structure EngineState where
  eventState : EventState
  txs : List Tx
deriving Repr, DecidableEq

/-- `eventStore.UpdateTransaction`: write back by primary key. -/
def updateTx (txs : List Tx) (t : Tx) : List Tx :=
  txs.map (fun x => if x.id == t.id then t else x)

inductive DepCheck where
  | ok
  | notMet
  | missing
deriving Repr, DecidableEq

/-- `Engine.checkDependencies` (engine.go:249-271): the first dependency
that is absent from the store is a fatal `missing`; the first one whose
state is not COMPLETED is the transient `notMet`. -/
def checkDependenciesAux (txs : List Tx) : List String → DepCheck
  | [] => .ok
  | depId :: rest =>
    match txs.find? (fun t => t.id == depId) with
    | none => .missing
    | some depTx =>
      if depTx.state = .completed then checkDependenciesAux txs rest else .notMet

def checkDependencies (txs : List Tx) (tx : Tx) : DepCheck :=
  checkDependenciesAux txs tx.deps

/-- The attempt loop of `Engine.executeTransactionWithRetry`
(engine.go:196-246): each attempt first persists EXECUTING; a missing
executor only records the error for the final `max retries exceeded`
return; an executor error persists FAILED with the error message; a
success persists COMPLETED and returns true. -/
def executeAttempts (reg : Registry) : Tx → List Nat → Tx × Bool
  | tx, [] => (tx, false)
  | tx, attempt :: rest =>
    let txE : Tx := { tx with state := .executing }
    match findExecutor reg tx.typeTag with
    | none => executeAttempts reg txE rest
    | some ex =>
      match ex.execResult tx.id attempt with
      | none => ({ txE with state := .completed }, true)
      | some msg =>
        executeAttempts reg { txE with state := .failed, errMsg := some msg } rest

def executeTransactionWithRetry (reg : Registry) (maxRetries : Nat) (tx : Tx) :
    Tx × Bool :=
  executeAttempts reg tx (List.range maxRetries)

/-- One transaction of the reverse-order sweep of
`Engine.compensateEvent` (engine.go:310-341): only a COMPLETED
transaction is considered; a missing executor is skipped; the
compensator is dispatched (second component records the dispatch), and
only on compensator success is the transaction marked COMPENSATED —
a compensator error leaves it unchanged and the sweep continues. -/
def compensateTx (reg : Registry) (t : Tx) : Tx × Option String :=
  if t.state = .completed then
    match findExecutor reg t.typeTag with
    | none => (t, none)
    | some ex =>
      if ex.compOk t.id then ({ t with state := .compensated }, some t.id)
      else (t, some t.id)
  else (t, none)

/-- `Engine.compensateEvent` (engine.go:290-351): persist ROLLING_BACK,
sweep the loaded transactions in reverse order — each loop iteration
reads and writes only its own transaction, so the resulting store is the
pointwise update and the dispatch log follows the reversed list — then
persist ROLLED_BACK unconditionally.  Returns the final state, the trace
of persisted event states, and the ids dispatched to a compensator. -/
def compensateEvent (reg : Registry) (st : EngineState) :
    EngineState × List EventState × List String :=
  ({ eventState := .rolledBack, txs := st.txs.map (fun t => (compensateTx reg t).1) },
   [.rollingBack, .rolledBack],
   (st.txs.reverse).filterMap (fun t => (compensateTx reg t).2))

/-- The single pass of `Engine.executeEvent` (engine.go:150-193) over the
loaded transactions: a transaction whose dependencies are not yet met is
skipped (`continue`) — the source has no further pass — a missing
dependency record fails the event, a transaction failure triggers
compensation, and after the loop the event is persisted COMPLETED.
Returns the final state and the trace of persisted event states. -/
def executeEventAux (reg : Registry) (maxRetries : Nat) :
    List Tx → EngineState → EngineState × List EventState
  | [], st => ({ st with eventState := .completed }, [.completed])
  | t :: rest, st =>
    match checkDependencies st.txs t with
    | .notMet => executeEventAux reg maxRetries rest st
    | .missing => ({ st with eventState := .failed }, [.failed])
    | .ok =>
      let r := executeTransactionWithRetry reg maxRetries t
      let st2 : EngineState := { st with txs := updateTx st.txs r.1 }
      if r.2 then executeEventAux reg maxRetries rest st2
      else
        let c := compensateEvent reg st2
        (c.1, c.2.1)

/-- `Engine.executeEvent`, entered with the event already persisted
EXECUTING by `StartEvent`. -/
def executeEvent (reg : Registry) (maxRetries : Nat) (st : EngineState) :
    EngineState × List EventState :=
  executeEventAux reg maxRetries st.txs st

/-! ### Wallet withdrawal executor (src/unnamed/part_007, executors package) -/

structure WithdrawalPayload where
  accountId : String
  amount : ℚ
  currency : String
deriving Repr, DecidableEq

inductive WithdrawalError where
  | invalidPayload : WithdrawalError
  | accountNotFound : WithdrawalError
  | currencyNotSupported : WithdrawalError
  | lienCreateFailed : LienError → WithdrawalError
  | releaseFailed : LienError → WithdrawalError
deriving Repr, DecidableEq

structure WithdrawalResult where
  transactionId : String
  status : String
deriving Repr, DecidableEq

/-- `accountSupportsCurrency` (executors helper). -/
def accountSupportsCurrency (account : Account) (currency : String) : Bool :=
  account.currency == currency

/-- `WalletWithdrawalExecutor.Execute` (part_007:409-517): validate the
payload, load the account and check its currency, create a lien of the
payload amount for the transaction's event with a 30-minute expiry,
process the withdrawal (`ProcessWithdrawal` in transaction_service.go is
a stub that fabricates a completed transaction record and never fails,
so it contributes only a fresh transaction identifier), then release the
lien just created.  No call activates the lien between creation and
release. -/
def walletWithdrawalExecute (avail : String → ℚ) (accounts : List Account)
    (liens : List Lien) (now : Nat) (eventId : String)
    (payload : WithdrawalPayload) (newLienId newTxnId : String) :
    Except WithdrawalError (WithdrawalResult × List Lien) :=
  if payload.accountId = "" then .error .invalidPayload
  else if payload.amount ≤ 0 then .error .invalidPayload
  else if payload.currency = "" then .error .invalidPayload
  else
    match getAccountByID accounts payload.accountId with
    | none => .error .accountNotFound
    | some account =>
      if ¬ accountSupportsCurrency account payload.currency then
        .error .currencyNotSupported
      else
        match createLien avail liens now eventId payload.accountId payload.amount
            payload.currency (now + 1800) newLienId with
        | .error e => .error (.lienCreateFailed e)
        | .ok (lien, liens1) =>
          match releaseLien liens1 lien.id with
          | .error e => .error (.releaseFailed e)
          | .ok liens2 =>
            .ok ({ transactionId := newTxnId, status := "COMPLETED" }, liens2)

/-- The lien sweep of `WalletWithdrawalExecutor.Compensate`
(part_007:586-600): iterate the snapshot of the event's liens; for each
whose state is Active or Pending issue `ReleaseLien`; any release error
aborts the compensation with that error.  Returns the updated store and
the ids released, in sweep order. -/
def releaseEventLiens (liens : List Lien) :
    List Lien → Except LienError (List Lien × List String)
  | [] => .ok (liens, [])
  | l :: rest =>
    if l.state = .active ∨ l.state = .pending then
      match releaseLien liens l.id with
      | .error e => .error e
      | .ok liens2 =>
        match releaseEventLiens liens2 rest with
        | .error e => .error e
        | .ok (liens3, ids) => .ok (liens3, l.id :: ids)
    else releaseEventLiens liens rest

/-- `WalletWithdrawalExecutor.Compensate` (part_007:520-608): the ledger
reversal (`ReverseWithdrawal`) is a stub returning nil in the source, so
the observable effect is the sweep over all liens of the transaction's
event — not only the lien created by the compensated transaction. -/
def walletWithdrawalCompensate (liens : List Lien) (eventId : String) :
    Except LienError (List Lien × List String) :=
  releaseEventLiens liens (liensByEvent liens eventId)

/-! ### Batch operation executor (src/unnamed/part_007) -/

/-- One recorded per-child outcome inside a persisted
`BatchOperationResult` (part_007:42-48).  The `result` field models the
child's `Result` map restricted to its string-valued entries — the only
access `Compensate` performs is the string assertion on the key
`"type"`. -/
structure BatchChildResult where
  id : String
  status : String
  result : List (String × String)
deriving Repr, DecidableEq

inductive BatchCompErr where
  | missingType : String → BatchCompErr
  | noExecutor : String → BatchCompErr
  | compensateFailed : String → BatchCompErr
deriving Repr, DecidableEq

def lookupKey (m : List (String × String)) (key : String) : Option String :=
  (m.find? (fun p => p.1 == key)).map (fun p => p.2)

/-- What `BatchOperationExecutor.Execute` (part_007:160-178) records for
one child: on executor error the status is FAILED; on success the status
is COMPLETED and the recorded result is the child executor's own result
map, copied verbatim — no `"type"` key is added.  (None of the
repository's executors puts a `"type"` key in its result; the wallet
deposit executor never sets a result at all, recorded here as `[]`.) -/
def batchRecordChild (childId : String) (execError : Option String)
    (childResultMap : List (String × String)) : BatchChildResult :=
  match execError with
  | some _ => { id := childId, status := "FAILED", result := [] }
  | none => { id := childId, status := "COMPLETED", result := childResultMap }

/-- The compensation loop of `BatchOperationExecutor.Compensate`
(part_007:243-297): children whose recorded status is not COMPLETED are
skipped; for the rest, the transaction type is read from the recorded
result's `"type"` key — its absence, an unregistered type, and a
compensator error are each collected as errors without aborting the
loop; the compensator is dispatched only when the type resolves.
Returns the dispatched child ids and the collected errors. -/
def batchCompensateAux (reg : Registry) :
    List BatchChildResult → List String × List BatchCompErr
  | [] => ([], [])
  | c :: rest =>
    let r := batchCompensateAux reg rest
    if c.status ≠ "COMPLETED" then r
    else
      match lookupKey c.result "type" with
      | none => (r.1, .missingType c.id :: r.2)
      | some ty =>
        match findExecutor reg ty with
        | none => (r.1, .noExecutor ty :: r.2)
        | some ex =>
          if ex.compOk c.id then (c.id :: r.1, r.2)
          else (c.id :: r.1, .compensateFailed c.id :: r.2)

/-- `BatchOperationExecutor.Compensate` (part_007:219-325): run the
loop, then record COMPENSATED when no error was collected and
PARTIALLY_COMPENSATED otherwise.  Returns the recorded batch status, the
dispatched child ids and the errors. -/
def batchCompensate (reg : Registry) (results : List BatchChildResult) :
    String × List String × List BatchCompErr :=
  let r := batchCompensateAux reg results
  (if r.2.isEmpty then "COMPENSATED" else "PARTIALLY_COMPENSATED", r.1, r.2)

/-! ### Auxiliary predicates -/

deriving instance DecidableEq for Except

def exceptIsOk {ε α : Type _} : Except ε α → Bool
  | .ok _ => true
  | .error _ => false

/-! ### Concrete fixtures used by the evaluation theorems and witnesses -/

/-- An executor that always succeeds. -/
def exGood : Executor := { execResult := fun _ _ => none, compOk := fun _ => true }

/-- An executor whose `Execute` fails on every attempt. -/
def exBad : Executor := { execResult := fun _ _ => some "boom", compOk := fun _ => true }

def regGood : Registry := [("t", exGood)]

def regBad : Registry := [("t", exBad)]

def regDep : Registry := [("wallet.deposit", exGood)]

/-- A transaction ordered first but depending on its later sibling. -/
def txT1 : Tx :=
  { id := "T1", typeTag := "t", state := .pending, order := 1, deps := ["T2"], errMsg := none }

def txT2 : Tx :=
  { id := "T2", typeTag := "t", state := .pending, order := 2, deps := [], errMsg := none }

def stC1 : EngineState := { eventState := .executing, txs := [txT1, txT2] }

def txOnly : Tx :=
  { id := "T1", typeTag := "t", state := .pending, order := 1, deps := [], errMsg := none }

def stC3 : EngineState := { eventState := .executing, txs := [txOnly] }

def txDone : Tx :=
  { id := "T2", typeTag := "t", state := .completed, order := 2, deps := [], errMsg := none }

def stDone : EngineState := { eventState := .executing, txs := [txOnly, txDone] }

def availHundred : String → ℚ := fun _ => 100

def accountsAB : List Account := [{ id := "A", currency := "USD" }, { id := "B", currency := "USD" }]

def accountsA1 : List Account := [{ id := "a1", currency := "USD" }]

def payloadW : WithdrawalPayload := { accountId := "a1", amount := 10, currency := "USD" }

/-- An entry balanced in exact decimal arithmetic: 0.1 + 0.2 debited, 0.3 credited. -/
def entryTenths : Entry :=
  { id := "E1",
    lines := [
      { accountId := "A", debit := 1/10, credit := 0 },
      { accountId := "A", debit := 2/10, credit := 0 },
      { accountId := "B", debit := 0, credit := 3/10 }] }

def lienW1 : Lien :=
  { id := "L1", eventId := "e1", accountId := "a1", amount := 5, currency := "USD",
    state := .active, expiresAt := 100 }

def lienW2 : Lien :=
  { id := "L2", eventId := "e1", accountId := "a2", amount := 7, currency := "USD",
    state := .active, expiresAt := 100 }

def lienW3 : Lien :=
  { id := "L3", eventId := "e2", accountId := "a1", amount := 3, currency := "USD",
    state := .pending, expiresAt := 100 }

def liensW : List Lien := [lienW1, lienW2, lienW3]

/-- The store after the compensation sweep of event e1 over `liensW`. -/
def liensWAfter : List Lien :=
  [{ lienW1 with state := .released }, { lienW2 with state := .released }, lienW3]

/-- An unbalanced entry over existing accounts: debits 100, credits 99. -/
def entryUnbal : Entry :=
  { id := "E2",
    lines := [
      { accountId := "A", debit := 100, credit := 0 },
      { accountId := "B", debit := 0, credit := 99 }] }

/-! ## Theorems -/

/-- C1: `executeEvent` walks the transactions of `stC1` exactly once.  T1
(order 1) is skipped because its dependency T2 (order 2) is not yet
COMPLETED; T2 then executes and completes; no further pass exists, and
the event is persisted COMPLETED while T1 is still PENDING — every
executor is registered and always succeeds, so nothing but the missing
repeat pass prevents T1 from completing.  This contradicts the claimed
invariant that an event transitions to COMPLETED only when every one of
its transactions is COMPLETED. -/
theorem C1_single_pass_completes_event_with_pending_tx :
    (executeEvent regGood 3 stC1).1.eventState = EventState.completed ∧
    ((executeEvent regGood 3 stC1).1.txs.find? (fun t => t.id == "T1")).map Tx.state =
      some TxState.pending ∧
    (executeEvent regGood 3 stC1).2 = [EventState.completed] := by
  decide

/-- C2: a wallet.withdrawal `Execute` on a valid payload (account a1,
amount 10, currency USD) against an account with available balance 100
and no existing liens — sufficient funds by any measure — fails at its
third step: the lien it created in state Pending is never activated, and
`ReleaseLien` only accepts an Active lien, so `Execute` returns the
`InvalidLienState` release failure instead of the success the claim
requires. -/
theorem C2_withdrawal_execute_always_fails_release :
    (0 : ℚ) < payloadW.amount ∧
    payloadW.amount ≤ availHundred "a1" ∧
    walletWithdrawalExecute availHundred accountsA1 [] 1000 "e1" payloadW "L1" "W1" =
      .error (.releaseFailed .invalidLienState) := by
  refine ⟨by norm_num [payloadW], by norm_num [payloadW, availHundred], ?_⟩
  norm_num [walletWithdrawalExecute, payloadW, availHundred, accountsA1, getAccountByID,
    accountSupportsCurrency, createLien, liensByAccount, reservedAmount, releaseLien,
    getLien, updateLien, List.find?, List.filter]
  decide

/-- C3 counterexample: in `stC3` the only transaction's executor fails on
every attempt, so its retries are exceeded: it is marked FAILED with its
error recorded — but the event-state trace persisted by the engine is
exactly [ROLLING_BACK, ROLLED_BACK]: the event never passes through the
FAILED state on its way to compensation, contradicting the claimed
EXECUTING → FAILED → ROLLING_BACK path. -/
theorem C3_counterexample :
    ((executeEvent regBad 3 stC3).1.txs.find? (fun t => t.id == "T1")).map Tx.state =
      some TxState.failed ∧
    ((executeEvent regBad 3 stC3).1.txs.find? (fun t => t.id == "T1")).map Tx.errMsg =
      some (some "boom") ∧
    (executeEvent regBad 3 stC3).2 = [EventState.rollingBack, EventState.rolledBack] ∧
    EventState.failed ∉ (executeEvent regBad 3 stC3).2 := by
  decide

/-- C6 counterexample: `createLien` called with an expiry equal to the
current instant — an expiry that is not in the future — and otherwise
valid inputs and ample funds does not fail with an invalid-input error:
the source only rejects an expiry strictly earlier than now
(`expiresAt.Before(time.Now())`), so the call succeeds. -/
theorem C6_counterexample :
    ¬ ((50 : Nat) < 50) ∧
    exceptIsOk (createLien availHundred [] 50 "e1" "a1" 5 "USD" 50 "L1") = true := by
  refine ⟨by decide, ?_⟩
  norm_num [createLien, availHundred, liensByAccount, reservedAmount, exceptIsOk,
    List.filter]
  decide

/-- C8: under exact decimal (fixed-point) arithmetic — the arithmetic
the claim requires — the entry debiting 0.1 and 0.2 and crediting 0.3
has equal debit and credit sums and is accepted by the validator.  The
Go source instead declares `totalDebit, totalCredit float64` and the
line amounts as `float64`, for which 0.1 + 0.2 ≠ 0.3 in IEEE binary64,
so the same balanced entry is rejected as unbalanced. -/
theorem C8_decimal_sums_balance_tenths :
    sumDebits entryTenths.lines = sumCredits entryTenths.lines ∧
    (createEntry accountsAB [] entryTenths).1 = .ok () := by
  constructor
  · norm_num [sumDebits, sumCredits, entryTenths]
  · norm_num [createEntry, validateEntry, validateLinesAux, entryTenths, accountsAB,
      getAccountByID, List.find?]
    simp

/-- C9: compensating a recorded batch whose single child completed
(exactly what `BatchOperationExecutor.Execute` records for a successful
wallet.deposit child: status COMPLETED and the child's result map, which
carries no "type" key) dispatches no child compensator at all — the
"type" lookup fails — even though the child's executor is registered;
the batch is recorded PARTIALLY_COMPENSATED on the strength of that
lookup error alone. -/
theorem C9_batch_compensate_dispatches_no_child :
    (batchRecordChild "c1" none []).status = "COMPLETED" ∧
    (findExecutor regDep "wallet.deposit").isSome = true ∧
    batchCompensate regDep [batchRecordChild "c1" none []] =
      ("PARTIALLY_COMPENSATED", [], [.missingType "c1"]) := by
  decide

/-- The reservation loop of `GetAvailableBalance` over the account's
liens computes the sum, over the full store, of the amounts of Pending
and Active liens on the account belonging to other events. -/
theorem getAvailBalanceReserved_spec (eventId accountId : String) (liens : List Lien) :
    getAvailBalanceReserved eventId (liensByAccount liens accountId) =
      ((liens.filter (fun l => l.accountId == accountId && l.eventId != eventId &&
          (l.state == LienState.pending || l.state == LienState.active))).map Lien.amount).sum := by
  induction liens with
  | nil => rfl
  | cons l rest ih =>
    cases ha : (l.accountId == accountId) <;>
      cases he : (l.eventId == eventId) <;>
        cases hs : l.state <;>
          simp_all [liensByAccount, getAvailBalanceReserved, List.filter_cons, bne]

/-- C7: `GetAvailableBalance` returns the account's available balance
minus the sum of amounts of Pending and Active liens on the account
whose event differs from the given event; liens of the given event are
excluded from the subtraction.  The right-hand side is the spec's
formula stated directly over the lien store. -/
theorem C7_event_available_balance (avail : String → ℚ) (liens : List Lien)
    (eventId accountId : String) :
    getAvailableBalance avail liens eventId accountId =
      avail accountId -
        ((liens.filter (fun l => l.accountId == accountId && l.eventId != eventId &&
            (l.state == LienState.pending || l.state == LienState.active))).map
          Lien.amount).sum := by
  unfold getAvailableBalance
  rw [getAvailBalanceReserved_spec]

/-- If the lien sweep of the withdrawal compensation returns success,
every Pending-or-Active lien of its snapshot had a release issued
against it (its id is in the released list). -/
theorem releaseEventLiens_ok_releases (snapshot : List Lien) :
    ∀ (store store2 : List Lien) (ids : List String),
      releaseEventLiens store snapshot = .ok (store2, ids) →
      ∀ l ∈ snapshot, (l.state = .pending ∨ l.state = .active) → l.id ∈ ids := by
  induction snapshot with
  | nil => intro store store2 ids _ l hl; cases hl
  | cons x rest ih =>
    intro store store2 ids h l hl hstate
    by_cases hx : (x.state = .active ∨ x.state = .pending)
    · cases hr : releaseLien store x.id with
      | error e => simp [releaseEventLiens, if_pos hx, hr] at h
      | ok store1 =>
        cases hrec : releaseEventLiens store1 rest with
        | error e => simp [releaseEventLiens, if_pos hx, hr, hrec] at h
        | ok p =>
          obtain ⟨store3, ids3⟩ := p
          obtain ⟨h1, h2⟩ : store3 = store2 ∧ x.id :: ids3 = ids := by
            simpa [releaseEventLiens, if_pos hx, hr, hrec] using h
          rcases List.mem_cons.mp hl with rfl | hl2
          · rw [← h2]; exact List.mem_cons_self _ _
          · rw [← h2]
            exact List.mem_cons_of_mem _ (ih store1 store3 ids3 hrec l hl2 hstate)
    · simp only [releaseEventLiens, if_neg hx] at h
      rcases List.mem_cons.mp hl with rfl | hl2
      · exact absurd (hstate.elim Or.inr Or.inl) hx
      · exact ih store store2 ids h l hl2 hstate

/-- C10: when the wallet.withdrawal compensation returns success, every
lien of the transaction's event whose state was Pending or Active has
had a release issued against it — the sweep ranges over all liens of
the whole event (`GetLiensByEvent`), not only the lien created by the
compensated transaction. -/
theorem C10_compensate_releases_all_event_liens (liens : List Lien) (eventId : String)
    (liens2 : List Lien) (ids : List String)
    (h : walletWithdrawalCompensate liens eventId = .ok (liens2, ids)) :
    ∀ l ∈ liens, l.eventId = eventId → (l.state = .pending ∨ l.state = .active) →
      l.id ∈ ids := by
  intro l hl hev hstate
  unfold walletWithdrawalCompensate at h
  have hmem : l ∈ liensByEvent liens eventId := by
    simp [liensByEvent, List.mem_filter, hl, hev]
  exact releaseEventLiens_ok_releases (liensByEvent liens eventId) liens liens2 ids h
    l hmem hstate

/-- C10 witness: compensating event e1 over a store with two Active
liens of e1 and a Pending lien of another event succeeds and releases
exactly the event's liens; the first lien's id is among the released. -/
theorem C10_witness :
    walletWithdrawalCompensate liensW "e1" = .ok (liensWAfter, ["L1", "L2"]) ∧
    lienW1.id ∈ (["L1", "L2"] : List String) :=
  ⟨by decide,
   C10_compensate_releases_all_event_liens liensW "e1" liensWAfter ["L1", "L2"]
     (by decide) lienW1 (by decide) (by decide) (by decide)⟩

/-- When every transaction type in the list is registered, the dispatch
log of the compensation sweep is exactly the COMPLETED transactions of
the list, in list order. -/
theorem compensate_dispatch_log (reg : Registry) :
    ∀ l : List Tx, (∀ t ∈ l, (findExecutor reg t.typeTag).isSome = true) →
      l.filterMap (fun t => (compensateTx reg t).2) =
        (l.filter (fun t => t.state == TxState.completed)).map Tx.id := by
  intro l
  induction l with
  | nil => intro _; rfl
  | cons t rest ih =>
    intro h
    have ht := h t (List.mem_cons_self t rest)
    have hrest := ih (fun x hx => h x (List.mem_cons_of_mem t hx))
    by_cases hc : t.state = TxState.completed
    · obtain ⟨ex, hex⟩ := Option.isSome_iff_exists.mp ht
      have hhead : (compensateTx reg t).2 = some t.id := by
        cases hco : ex.compOk t.id <;> simp [compensateTx, hc, hex, hco]
      simp only [List.filterMap_cons, List.filter_cons, List.map_cons, hhead,
        beq_iff_eq, hc, if_true]
      rw [hrest]
    · have hhead : (compensateTx reg t).2 = none := by
        simp [compensateTx, hc]
      simp only [List.filterMap_cons, List.filter_cons, List.map_cons, hhead,
        beq_iff_eq, hc, if_false]
      rw [hrest]

/-- C5: `compensateEvent` persists ROLLING_BACK and then ROLLED_BACK
unconditionally — individual compensator errors do not abort the sweep
and the event reaches ROLLED_BACK regardless; when every transaction
type is registered, exactly the COMPLETED transactions are dispatched
to their compensator, in reverse order; a dispatched transaction whose
compensator succeeds is marked COMPENSATED, and a transaction that was
not COMPLETED is left unchanged. -/
theorem C5_compensation_sweep (reg : Registry) (st : EngineState) :
    (compensateEvent reg st).1.eventState = EventState.rolledBack ∧
    (compensateEvent reg st).2.1 = [EventState.rollingBack, EventState.rolledBack] ∧
    ((∀ t ∈ st.txs, (findExecutor reg t.typeTag).isSome = true) →
      (compensateEvent reg st).2.2 =
        ((st.txs.reverse).filter (fun t => t.state == TxState.completed)).map Tx.id) ∧
    (∀ t ∈ st.txs, t.state = TxState.completed →
      ∀ ex, findExecutor reg t.typeTag = some ex → ex.compOk t.id = true →
        ({ t with state := TxState.compensated } : Tx) ∈ (compensateEvent reg st).1.txs) ∧
    (∀ t ∈ st.txs, t.state ≠ TxState.completed → t ∈ (compensateEvent reg st).1.txs) := by
  refine ⟨rfl, rfl, ?_, ?_, ?_⟩
  · intro h
    exact compensate_dispatch_log reg st.txs.reverse
      (fun t ht => h t (List.mem_reverse.mp ht))
  · intro t ht hc ex hex hco
    have heq : (compensateTx reg t).1 = { t with state := TxState.compensated } := by
      simp [compensateTx, hc, hex, hco]
    simpa [compensateEvent, heq] using
      List.mem_map_of_mem (fun x => (compensateTx reg x).1) ht
  · intro t ht hc
    have heq : (compensateTx reg t).1 = t := by
      simp [compensateTx, hc]
    simpa [compensateEvent, heq] using
      List.mem_map_of_mem (fun x => (compensateTx reg x).1) ht

/-- C5 witness: sweeping a store with one PENDING and one COMPLETED
transaction, all types registered, dispatches exactly the COMPLETED
one. -/
theorem C5_witness :
    (∀ t ∈ stDone.txs, (findExecutor regGood t.typeTag).isSome = true) ∧
    (compensateEvent regGood stDone).2.2 =
      ((stDone.txs.reverse).filter (fun t => t.state == TxState.completed)).map Tx.id :=
  ⟨by decide, (C5_compensation_sweep regGood stDone).2.2.1 (by decide)⟩

/-- If the executor for a transaction's type is registered and fails on
every attempt of a non-empty attempt list, the retry loop ends with the
transaction marked FAILED, its error recorded, and an unsuccessful
return. -/
theorem executeAttempts_all_fail (reg : Registry) (ex : Executor) :
    ∀ (attempts : List Nat) (tx : Tx), attempts ≠ [] →
      findExecutor reg tx.typeTag = some ex →
      (∀ a ∈ attempts, ex.execResult tx.id a ≠ none) →
      (executeAttempts reg tx attempts).1.state = TxState.failed ∧
      (executeAttempts reg tx attempts).1.errMsg ≠ none ∧
      (executeAttempts reg tx attempts).2 = false := by
  intro attempts
  induction attempts with
  | nil => intro tx hne _ _; exact absurd rfl hne
  | cons a rest ih =>
    intro tx _ hex hfail
    cases hmsg : ex.execResult tx.id a with
    | none => exact absurd hmsg (hfail a (List.mem_cons_self a rest))
    | some msg =>
      have hstep : executeAttempts reg tx (a :: rest) =
          executeAttempts reg { tx with state := .failed, errMsg := some msg } rest := by
        simp only [executeAttempts, hex, hmsg]
      rw [hstep]
      cases rest with
      | nil => exact ⟨rfl, by simp [executeAttempts], rfl⟩
      | cons b rest2 =>
        exact ih { tx with state := .failed, errMsg := some msg }
          (by simp) hex (fun a2 ha2 => hfail a2 (List.mem_cons_of_mem a ha2))

/-- C3 (amended): when a transaction's execution exceeds its retries
(its registered executor fails on every attempt), the transaction is
marked FAILED with its error recorded; the event, however, transitions
directly from EXECUTING to ROLLING_BACK and then ROLLED_BACK — the
engine's persisted event-state traces are exhaustively [COMPLETED],
[FAILED] (dependency-resolution errors only) and
[ROLLING_BACK, ROLLED_BACK], so no trace interposes FAILED before
ROLLING_BACK. -/
theorem C3_transaction_failure_rolls_back_without_failed_state :
    (∀ (reg : Registry) (n : Nat) (tx : Tx) (ex : Executor),
      findExecutor reg tx.typeTag = some ex → 0 < n →
      (∀ a, a < n → ex.execResult tx.id a ≠ none) →
      (executeTransactionWithRetry reg n tx).1.state = TxState.failed ∧
      (executeTransactionWithRetry reg n tx).1.errMsg ≠ none ∧
      (executeTransactionWithRetry reg n tx).2 = false) ∧
    (∀ (reg : Registry) (n : Nat) (l : List Tx) (st : EngineState),
      (executeEventAux reg n l st).2 = [EventState.completed] ∨
      (executeEventAux reg n l st).2 = [EventState.failed] ∨
      (executeEventAux reg n l st).2 = [EventState.rollingBack, EventState.rolledBack]) := by
  constructor
  · intro reg n tx ex hex hn hfail
    have hne : List.range n ≠ [] := by
      simpa [List.range_eq_nil] using Nat.pos_iff_ne_zero.mp hn
    exact executeAttempts_all_fail reg ex (List.range n) tx hne hex
      (fun a ha => hfail a (List.mem_range.mp ha))
  · intro reg n l st
    induction l generalizing st with
    | nil => left; rfl
    | cons t rest ih =>
      cases hdep : checkDependencies st.txs t with
      | notMet =>
        simp only [executeEventAux, hdep]
        exact ih st
      | missing => simp [executeEventAux, hdep]
      | ok =>
        simp only [executeEventAux, hdep]
        by_cases hr : (executeTransactionWithRetry reg n t).2 = true
        · simp only [hr, if_true]
          exact ih _
        · simp only [Bool.not_eq_true] at hr
          simp only [hr, Bool.false_eq_true, if_false]
          exact Or.inr (Or.inr rfl)

/-- C3 witness: the concrete always-failing run instantiates both parts
of the amended statement. -/
theorem C3_witness :
    ((executeTransactionWithRetry regBad 3 txOnly).1.state = TxState.failed ∧
     (executeTransactionWithRetry regBad 3 txOnly).1.errMsg ≠ none ∧
     (executeTransactionWithRetry regBad 3 txOnly).2 = false) ∧
    ((executeEventAux regBad 3 [txOnly] stC3).2 = [EventState.completed] ∨
     (executeEventAux regBad 3 [txOnly] stC3).2 = [EventState.failed] ∨
     (executeEventAux regBad 3 [txOnly] stC3).2 =
       [EventState.rollingBack, EventState.rolledBack]) :=
  ⟨C3_transaction_failure_rolls_back_without_failed_state.1 regBad 3 txOnly exBad rfl
      (by decide) (fun a _ h => by simp [exBad] at h),
   C3_transaction_failure_rolls_back_without_failed_state.2 regBad 3 [txOnly] stC3⟩

/-- C6 (amended): `createLien` fails with InsufficientFunds exactly when
(given well-formed event and account ids) the inputs pass validation and
the account's available balance minus the sum of its Pending and Active
lien amounts is less than the requested amount; it fails with an
invalid-input error whenever the amount is ≤ 0, the currency is empty,
or the expiry is strictly earlier than the creation instant — an expiry
exactly equal to the current instant is accepted; and every lien it
successfully creates has initial state Pending. -/
theorem C6_create_lien_checks (avail : String → ℚ) (liens : List Lien) (now : Nat)
    (eventId accountId : String) (amount : ℚ) (currency : String)
    (expiresAt : Nat) (newId : String) :
    ((amount ≤ 0 ∨ currency = "" ∨ expiresAt < now) →
      isInvalidInput
        (createLien avail liens now eventId accountId amount currency expiresAt newId) =
        true) ∧
    (eventId ≠ "" → accountId ≠ "" →
      ((createLien avail liens now eventId accountId amount currency expiresAt newId =
          .error .insufficientFunds) ↔
        (0 < amount ∧ currency ≠ "" ∧ ¬ expiresAt < now ∧
          avail accountId - reservedAmount (liensByAccount liens accountId) < amount))) ∧
    (∀ l ls,
      createLien avail liens now eventId accountId amount currency expiresAt newId =
        .ok (l, ls) →
      l.state = LienState.pending ∧ l.amount = amount ∧ l.eventId = eventId ∧
        l.accountId = accountId ∧ ls = liens ++ [l]) := by
  refine ⟨?_, ?_, ?_⟩
  · intro h
    unfold createLien
    split_ifs <;> simp_all [isInvalidInput, not_lt, not_le]
  · intro he ha
    unfold createLien
    split_ifs <;> simp_all [not_lt, not_le]
  · intro l ls h
    unfold createLien at h
    split_ifs at h
    simp only [Except.ok.injEq, Prod.mk.injEq] at h
    obtain ⟨h1, h2⟩ := h
    subst h1
    exact ⟨rfl, rfl, rfl, rfl, h2.symm⟩

/-- C6 witness: an empty currency triggers the invalid-input rejection. -/
theorem C6_witness :
    ((5 : ℚ) ≤ 0 ∨ "" = "" ∨ (50 : Nat) < 50) ∧
    isInvalidInput (createLien availHundred [] 50 "e1" "a1" 5 "" 50 "L1") = true :=
  ⟨Or.inr (Or.inl rfl),
   (C6_create_lien_checks availHundred [] 50 "e1" "a1" 5 "" 50 "L1").1
     (Or.inr (Or.inl rfl))⟩

/-- Soundness of the validator loop: a successful pass means every line
referenced an existing account and passed the amount checks, and the
returned pair is the two accumulated sums. -/
theorem validateLinesAux_ok (accounts : List Account) :
    ∀ (lines : List EntryLine) (td tc : ℚ) (p : ℚ × ℚ),
      validateLinesAux accounts lines td tc = .ok p →
      (∀ l ∈ lines, (getAccountByID accounts l.accountId).isSome ∧ lineOk l) ∧
      p = (lines.foldl (fun s l => s + l.debit) td,
           lines.foldl (fun s l => s + l.credit) tc) := by
  intro lines
  induction lines with
  | nil =>
    intro td tc p h
    refine ⟨fun l hl => absurd hl (List.not_mem_nil l), ?_⟩
    simpa [validateLinesAux] using h.symm
  | cons l rest ih =>
    intro td tc p h
    simp only [validateLinesAux] at h
    cases ho : getAccountByID accounts l.accountId with
    | none => rw [if_pos (by simp [ho])] at h; cases h
    | some acct =>
      rw [if_neg (by simp [ho])] at h
      by_cases h2 : (l.debit < 0 ∨ l.credit < 0)
      · rw [if_pos h2] at h; cases h
      · rw [if_neg h2] at h
        by_cases h3 : (0 < l.debit ∧ 0 < l.credit)
        · rw [if_pos h3] at h; cases h
        · rw [if_neg h3] at h
          obtain ⟨hall, hp⟩ := ih (td + l.debit) (tc + l.credit) p h
          refine ⟨?_, by simpa [List.foldl_cons] using hp⟩
          intro x hx
          rcases List.mem_cons.mp hx with rfl | hx2
          · exact ⟨by simp [ho], h2, h3⟩
          · exact hall x hx2

/-- Completeness of the validator loop: when every line is well formed
over existing accounts, the pass succeeds with the accumulated sums. -/
theorem validateLinesAux_ok_of (accounts : List Account) :
    ∀ (lines : List EntryLine) (td tc : ℚ),
      (∀ l ∈ lines, (getAccountByID accounts l.accountId).isSome ∧ lineOk l) →
      validateLinesAux accounts lines td tc =
        .ok (lines.foldl (fun s l => s + l.debit) td,
             lines.foldl (fun s l => s + l.credit) tc) := by
  intro lines
  induction lines with
  | nil => intro td tc _; rfl
  | cons l rest ih =>
    intro td tc hall
    obtain ⟨hsome, hok⟩ := hall l (List.mem_cons_self l rest)
    obtain ⟨acct, ho⟩ := Option.isSome_iff_exists.mp hsome
    have h1 : ¬ (getAccountByID accounts l.accountId).isNone = true := by simp [ho]
    simp only [validateLinesAux, if_neg h1, if_neg hok.1, if_neg hok.2]
    exact ih (td + l.debit) (tc + l.credit)
      (fun x hx => hall x (List.mem_cons_of_mem l hx))

/-- When every line's account exists and some line fails the amount
checks, the validator loop rejects with a line-level error. -/
theorem validateLinesAux_line_err (accounts : List Account) :
    ∀ (lines : List EntryLine) (td tc : ℚ),
      (∀ l ∈ lines, (getAccountByID accounts l.accountId).isSome) →
      (∃ l ∈ lines, ¬ lineOk l) →
      ∃ e, validateLinesAux accounts lines td tc = .error e ∧ isLineError e = true := by
  intro lines
  induction lines with
  | nil => intro td tc _ hbad; obtain ⟨l, hl, _⟩ := hbad; cases hl
  | cons l rest ih =>
    intro td tc hall hbad
    obtain ⟨acct, ho⟩ :=
      Option.isSome_iff_exists.mp (hall l (List.mem_cons_self l rest))
    have h1 : ¬ (getAccountByID accounts l.accountId).isNone = true := by simp [ho]
    by_cases hok : lineOk l
    · obtain ⟨x, hx, hxbad⟩ := hbad
      rcases List.mem_cons.mp hx with rfl | hx2
      · exact absurd hok hxbad
      · simp only [validateLinesAux, if_neg h1, if_neg hok.1, if_neg hok.2]
        exact ih (td + l.debit) (tc + l.credit)
          (fun y hy => hall y (List.mem_cons_of_mem l hy)) ⟨x, hx2, hxbad⟩
    · by_cases h2 : (l.debit < 0 ∨ l.credit < 0)
      · refine ⟨.negativeAmount, ?_, rfl⟩
        simp only [validateLinesAux, if_neg h1, if_pos h2]
      · have h3 : (0 < l.debit ∧ 0 < l.credit) := by
          unfold lineOk at hok; tauto
        refine ⟨.bothDebitAndCredit, ?_, rfl⟩
        simp only [validateLinesAux, if_neg h1, if_neg h2, if_pos h3]

/-- When every line passes the amount checks and some line references a
missing account, the validator loop rejects with account-not-found. -/
theorem validateLinesAux_acct_err (accounts : List Account) :
    ∀ (lines : List EntryLine) (td tc : ℚ),
      (∀ l ∈ lines, lineOk l) →
      (∃ l ∈ lines, getAccountByID accounts l.accountId = none) →
      ∃ e, validateLinesAux accounts lines td tc = .error e ∧
        isAccountError e = true := by
  intro lines
  induction lines with
  | nil => intro td tc _ hbad; obtain ⟨l, hl, _⟩ := hbad; cases hl
  | cons l rest ih =>
    intro td tc hall hbad
    cases ho : getAccountByID accounts l.accountId with
    | none =>
      refine ⟨.accountNotFound l.accountId, ?_, rfl⟩
      simp only [validateLinesAux, if_pos (show (getAccountByID accounts
        l.accountId).isNone = true by simp [ho])]
    | some acct =>
      have hok := hall l (List.mem_cons_self l rest)
      have h1 : ¬ (getAccountByID accounts l.accountId).isNone = true := by simp [ho]
      obtain ⟨x, hx, hxnone⟩ := hbad
      rcases List.mem_cons.mp hx with rfl | hx2
      · rw [ho] at hxnone; cases hxnone
      · simp only [validateLinesAux, if_neg h1, if_neg hok.1, if_neg hok.2]
        exact ih (td + l.debit) (tc + l.credit)
          (fun y hy => hall y (List.mem_cons_of_mem l hy)) ⟨x, hx2, hxnone⟩

/-- A successful `ValidateEntry` means the sums balance and every line
is well formed over existing accounts. -/
theorem validateEntry_ok (accounts : List Account) (entry : Entry)
    (h : validateEntry accounts entry = .ok ()) :
    sumDebits entry.lines = sumCredits entry.lines ∧
    ∀ l ∈ entry.lines, (getAccountByID accounts l.accountId).isSome ∧ lineOk l := by
  unfold validateEntry at h
  by_cases hl : entry.lines.length < 2
  · rw [if_pos hl] at h; cases h
  · rw [if_neg hl] at h
    cases hv : validateLinesAux accounts entry.lines 0 0 with
    | error e => rw [hv] at h; cases h
    | ok p =>
      obtain ⟨td, tc⟩ := p
      rw [hv] at h
      obtain ⟨hall, hp⟩ := validateLinesAux_ok accounts entry.lines 0 0 (td, tc) hv
      by_cases hne : td ≠ tc
      · simp [hne] at h
      · refine ⟨?_, hall⟩
        have htd : td = sumDebits entry.lines := by
          simpa [sumDebits] using congrArg Prod.fst hp
        have htc : tc = sumCredits entry.lines := by
          simpa [sumCredits] using congrArg Prod.snd hp
        rw [← htd, ← htc]
        exact not_not.mp hne

/-- C4: `CreateEntry` rejects an entry whose debit and credit sums
differ, an entry with a line carrying a negative amount or both debit
and credit, and an entry referencing a missing account; the rejection is
tagged unbalanced when the lines and accounts are otherwise fine, a
line-level validation error when the accounts exist but a line is bad,
and account-not-found when the lines are fine but an account is missing;
and in every rejection case nothing is persisted — the ledger is
returned unchanged. -/
theorem C4_create_entry_validation (accounts : List Account) (ledger : List Entry)
    (entry : Entry) (hlen : 2 ≤ entry.lines.length) :
    (sumDebits entry.lines ≠ sumCredits entry.lines →
      exceptIsOk (createEntry accounts ledger entry).1 = false) ∧
    ((∃ l ∈ entry.lines, ¬ lineOk l) →
      exceptIsOk (createEntry accounts ledger entry).1 = false) ∧
    ((∃ l ∈ entry.lines, getAccountByID accounts l.accountId = none) →
      exceptIsOk (createEntry accounts ledger entry).1 = false) ∧
    ((∀ l ∈ entry.lines, (getAccountByID accounts l.accountId).isSome ∧ lineOk l) →
      sumDebits entry.lines ≠ sumCredits entry.lines →
      (createEntry accounts ledger entry).1 =
        .error (.unbalanced (sumDebits entry.lines) (sumCredits entry.lines))) ∧
    ((∀ l ∈ entry.lines, (getAccountByID accounts l.accountId).isSome) →
      (∃ l ∈ entry.lines, ¬ lineOk l) →
      errSat isLineError (createEntry accounts ledger entry).1 = true) ∧
    ((∀ l ∈ entry.lines, lineOk l) →
      (∃ l ∈ entry.lines, getAccountByID accounts l.accountId = none) →
      errSat isAccountError (createEntry accounts ledger entry).1 = true) ∧
    (exceptIsOk (createEntry accounts ledger entry).1 = false →
      (createEntry accounts ledger entry).2 = ledger) := by
  have hnl : ¬ entry.lines.length < 2 := by omega
  refine ⟨?_, ?_, ?_, ?_, ?_, ?_, ?_⟩
  · intro hne
    cases hv : validateEntry accounts entry with
    | error e => simp [createEntry, hv, exceptIsOk]
    | ok u =>
      cases u
      exact absurd (validateEntry_ok accounts entry hv).1 hne
  · intro hbad
    cases hv : validateEntry accounts entry with
    | error e => simp [createEntry, hv, exceptIsOk]
    | ok u =>
      cases u
      obtain ⟨l, hl, hlbad⟩ := hbad
      exact absurd ((validateEntry_ok accounts entry hv).2 l hl).2 hlbad
  · intro hbad
    cases hv : validateEntry accounts entry with
    | error e => simp [createEntry, hv, exceptIsOk]
    | ok u =>
      cases u
      obtain ⟨l, hl, hlnone⟩ := hbad
      have := ((validateEntry_ok accounts entry hv).2 l hl).1
      simp [hlnone] at this
  · intro hall hne
    have hv := validateLinesAux_ok_of accounts entry.lines 0 0 hall
    have hsd : entry.lines.foldl (fun s l => s + l.debit) 0 = sumDebits entry.lines := rfl
    have hsc : entry.lines.foldl (fun s l => s + l.credit) 0 = sumCredits entry.lines := rfl
    simp [createEntry, validateEntry, if_neg hnl, hv, hsd, hsc, hne]
  · intro hall hbad
    obtain ⟨e, he, hle⟩ := validateLinesAux_line_err accounts entry.lines 0 0 hall hbad
    simp [createEntry, validateEntry, if_neg hnl, he, errSat, hle]
  · intro hall hbad
    obtain ⟨e, he, hae⟩ := validateLinesAux_acct_err accounts entry.lines 0 0 hall hbad
    simp [createEntry, validateEntry, if_neg hnl, he, errSat, hae]
  · intro hfail
    cases hv : validateEntry accounts entry with
    | error e => simp [createEntry, hv]
    | ok u => simp [createEntry, hv, exceptIsOk] at hfail

/-- C4 witness: the unbalanced entry (debits 100, credits 99) over
existing accounts is rejected. -/
theorem C4_witness :
    2 ≤ entryUnbal.lines.length ∧
    exceptIsOk (createEntry accountsAB [] entryUnbal).1 = false :=
  ⟨by decide,
   (C4_create_entry_validation accountsAB [] entryUnbal (by decide)).1
     (by norm_num [sumDebits, sumCredits, entryUnbal])⟩

end FintechLedger
